import Mathlib

/-!
Shallow embedding of `src/index.ts` of the issue-board-creator repository:
the `createIssues` pipeline that reads epic and story markdown files,
resolves labels, creates epic issues, and creates story issues in priority
order against an external issue tracker.

Modelling conventions:
* The external `MarkdownRecordParser` (`getMDStory`) is modelled by giving
  each input file directly as its parse result (frontmatter + description).
* The external tracker client is modelled by an environment `Env` supplying
  the identifiers its calls return; each call the pipeline makes is recorded
  as an `Event` in the run trace.
* JavaScript `string | undefined` values are `Option String`; JS truthiness
  on such values is `truthy`; interpolation of `undefined` into a template
  literal yields the literal text "undefined" (`interp`).
* The JS object `epics` keyed by strings is an association list with
  JS-assignment semantics (`setKey`: overwrite in place, else append);
  `epics[undefined]` stores under the property key "undefined".
* Each distinct `throw` site of the pipeline is one `RunError` constructor.
-/

namespace IssueBoard

/-- Frontmatter fields of a markdown record, as produced by the external
parser; every field is optional in the source data. -/
structure Frontmatter where
  title : Option String
  label : Option String
  role : Option String
  action : Option String
  benefit : Option String
deriving DecidableEq, Repr

/-- A source file: its name together with the parse of its content
(the external parser returns `{ frontmatter, description }`). -/
structure MDFile where
  name : String
  frontmatter : Frontmatter
  description : String
deriving DecidableEq, Repr

/-- The `MDStory` shape of the source: frontmatter plus description. -/
structure MDStory where
  frontmatter : Frontmatter
  description : String
deriving DecidableEq, Repr

/-- JavaScript truthiness restricted to `string | undefined` values:
`undefined` and the empty string are falsy, every other string is truthy. -/
def truthy : Option String → Bool
  | none => false
  | some s => s ≠ ""

/-- Value of `x` in a JS template literal: `undefined` renders as the
text "undefined". -/
def interp (o : Option String) : String :=
  o.getD "undefined"

/-- Embedding of `file.endsWith(".md")`. -/
def isMdFile (name : String) : Bool :=
  ['.', 'm', 'd'].isSuffixOf name.toList

/-- Embedding of the regex match against `^(\d+)-` in the epic loop
(`file.match(...)?.[1]`): the leading run of digits when it is nonempty
and immediately followed by `'-'`. -/
def epicNumberOf (file : String) : Option String :=
  let cs := file.toList
  let ds := cs.takeWhile Char.isDigit
  if ds.isEmpty then none
  else
    match cs.drop ds.length with
    | c :: _ => if c = '-' then some (String.mk ds) else none
    | [] => none

/-- The property key under which an epic file is stored: the matched epic
number, or (as in JS, where `epics[undefined]` uses the property key
"undefined") the string "undefined" when the filename does not match. -/
def epicKeyOf (file : String) : String :=
  (epicNumberOf file).getD "undefined"

/-- Embedding of `file.split("-")` (split on every occurrence of the
one-character separator, keeping empty segments). -/
def splitDashAux (cur : List Char) : List Char → List String
  | [] => [String.mk cur.reverse]
  | c :: cs =>
    if c = '-' then String.mk cur.reverse :: splitDashAux [] cs
    else splitDashAux (c :: cur) cs

/-- Embedding of `file.split("-")`. -/
def splitDash (s : String) : List String :=
  splitDashAux [] s.toList

/-- The story id computed from a story filename:
`const [epicNumber, storyNumber] = file.split("-").slice(0, 2)` followed by
the template `` `${epicNumber}-${storyNumber}` `` (an absent second segment
interpolates as "undefined"). -/
def storyIdOf (file : String) : String :=
  let parts := splitDash file
  (parts.headD "") ++ "-" ++ interp parts[1]?

/-- The first segment of a story filename, used as the key into the epics
mapping (`epics[epicNumber]`). -/
def storyEpicKeyOf (file : String) : String :=
  (splitDash file).headD ""

/-- Association list with JS-object / JS-`Map` assignment semantics: if the
key is present its value is replaced in place, otherwise the pair is
appended (preserving first-insertion order of keys). -/
def setKey {κ α : Type} [BEq κ] (m : List (κ × α)) (k : κ) (v : α) : List (κ × α) :=
  if m.any (fun p => p.1 == k) then
    m.map (fun p => if p.1 == k then (k, v) else p)
  else m ++ [(k, v)]

/-- Key lookup in the association list (first matching entry). -/
def getKey {κ α : Type} [BEq κ] (m : List (κ × α)) (k : κ) : Option α :=
  (m.find? (fun p => p.1 == k)).map (fun p => p.2)

/-- The record stored per epic: `{ epic: { frontmatter, description,
stories: [] }, issueId: "" }` (the `stories` collection is never appended
to by the program). -/
structure EpicEntry where
  epic : MDStory
  stories : List MDStory
  issueId : String
deriving DecidableEq, Repr

/-- Ids returned by the external tracker: `labelId` is the id
`createLabelIfNotExists` returns for a name (get-or-create, hence a
function of the name), `issueId n` is the id the n-th `createIssue` call of
the epic loop returns. -/
structure Env where
  labelId : Option String → String
  issueId : Nat → String

/-- One tracker call made by the pipeline, with the arguments the claims
speak about. -/
inductive Event where
  | createLabel (name : Option String)
  | createIssue (title : Option String) (body : String) (labelId : String)
  | createIssueAddToProject (parentIssueId : String) (title : String)
      (body : String) (labelId : Option String)
deriving DecidableEq, Repr

/-- Whether an event is a story-creation call (`createIssueAddToProject`). -/
def Event.isStoryCreate : Event → Bool
  | .createIssueAddToProject _ _ _ _ => true
  | _ => false

/-- The distinct `throw` sites of the pipeline. -/
inductive RunError where
  /-- `Story NAME not found in priority order` (the spec's OrderingError). -/
  | orderingError (file : String)
  /-- `Title not set for NAME` (a missing story title). -/
  | titleError (file : String)
  /-- `Label "Epic" not found`. -/
  | epicLabelError
  /-- The runtime TypeError raised by `epics[epicNumber].issueId` when the
  epic key is absent; its message carries no file name. -/
  | undefinedEpicError
deriving DecidableEq, Repr

/-- The file name interpolated into the error's message, when any. -/
def RunError.mentionsFile : RunError → Option String
  | .orderingError f => some f
  | .titleError f => some f
  | .epicLabelError => none
  | .undefinedEpicError => none

/-- The inputs of one run: the directory listings of the epics and stories
locations (each file given with the parse of its content) and the parsed
priority manifest. -/
structure Input where
  epicDirFiles : List MDFile
  storyDirFiles : List MDFile
  priorityOrder : List String
deriving Repr

/-- Epic files: the epics directory listing filtered to `.md`. -/
def mdEpicFiles (i : Input) : List MDFile :=
  i.epicDirFiles.filter (fun f => isMdFile f.name)

/-- Story files: the stories directory listing filtered to `.md`. -/
def mdStoryFiles (i : Input) : List MDFile :=
  i.storyDirFiles.filter (fun f => isMdFile f.name)

/-- The fresh entry stored for an epic file: parse result, empty stories,
empty issue id. -/
def entryOf (f : MDFile) : EpicEntry :=
  ⟨⟨f.frontmatter, f.description⟩, [], ""⟩

/-- The `epics` record after the `epicFiles.forEach` loop: each file is
assigned under its `epicKeyOf` key, a later file overwriting an earlier one
with the same key. -/
def epicsInit (files : List MDFile) : List (String × EpicEntry) :=
  files.foldl (fun m f => setKey m (epicKeyOf f.name) (entryOf f)) []

/-- The epics mapping built from the run's input. -/
def epicsMap (i : Input) : List (String × EpicEntry) :=
  epicsInit (mdEpicFiles i)

/-- First-occurrence deduplication, as performed by `new Set([...])`
(insertion order, keeping the first occurrence of each element). -/
def dedupFirstAux (seen : List (Option String)) :
    List (Option String) → List (Option String)
  | [] => []
  | a :: l =>
    if a ∈ seen then dedupFirstAux seen l
    else a :: dedupFirstAux (a :: seen) l

/-- `[...new Set(l)]`. -/
def dedupFirst (l : List (Option String)) : List (Option String) :=
  dedupFirstAux [] l

/-- The deduplicated label list:
`[...new Set([...Object.values(epics).map(e => e.epic.frontmatter.label), "Epic"])]`.
An epic without a `label` field contributes `none` (JS `undefined`). -/
def labelNames (epics : List (String × EpicEntry)) : List (Option String) :=
  dedupFirst ((epics.map (fun p => p.2.epic.frontmatter.label)) ++ [some "Epic"])

/-- The label list of the run. -/
def labelList (i : Input) : List (Option String) :=
  labelNames (epicsMap i)

/-- The `labelsByName` map: one `createLabelIfNotExists` call per element of
the label list, recording `name -> id`. -/
def labelsByName (env : Env) (names : List (Option String)) :
    List (Option String × String) :=
  names.foldl (fun m n => setKey m n (env.labelId n)) []

/-- The `labelsByName` map of the run. -/
def lbnOf (env : Env) (i : Input) : List (Option String × String) :=
  labelsByName env (labelList i)

/-- The `createLabelIfNotExists` events of the run, one per label-list
element in order. -/
def labelEvents (i : Input) : List Event :=
  (labelList i).map Event.createLabel

/-- The epic body: when `frontmatter.role` is truthy, the template
`As a ROLE, I want to ACTION so that BENEFIT.`; otherwise the empty
string. The description is not used. -/
def epicBody (fm : Frontmatter) : String :=
  if truthy fm.role then
    "As a " ++ interp fm.role ++ ", I want to " ++ interp fm.action ++
      " so that " ++ interp fm.benefit ++ "."
  else ""

/-- The epic-creation loop over `Object.values(epics)`: per entry it looks
up the "Epic" label id (throwing if absent), issues `createIssue` with the
raw frontmatter title (no check) and the epic body, and stores the returned
issue id back into the entry. Returns the updated mapping, the trace of
events, and the error, if any. -/
def runEpics (env : Env) (lbn : List (Option String × String)) :
    List (String × EpicEntry) → Nat →
      List (String × EpicEntry) × List Event × Option RunError
  | [], _ => ([], [], none)
  | (k, e) :: rest, n =>
    match getKey lbn (some "Epic") with
    | none => ([], [], some .epicLabelError)
    | some lid =>
      let ev := Event.createIssue e.epic.frontmatter.title
        (epicBody e.epic.frontmatter) lid
      let e2 : String × EpicEntry := (k, { e with issueId := env.issueId n })
      let r := runEpics env lbn rest (n + 1)
      (e2 :: r.1, ev :: r.2.1, r.2.2)

/-- The epics mapping after the creation loop (issue ids assigned). -/
def epicsFinal (i : Input) (env : Env) : List (String × EpicEntry) :=
  (runEpics env (lbnOf env i) (epicsMap i) 0).1

/-- The `createIssue` events of the epic loop. -/
def epicEvents (i : Input) (env : Env) : List Event :=
  (runEpics env (lbnOf env i) (epicsMap i) 0).2.1

/-- The error of the epic loop, if any. -/
def epicError (i : Input) (env : Env) : Option RunError :=
  (runEpics env (lbnOf env i) (epicsMap i) 0).2.2

/-- Embedding of `Array.prototype.indexOf` wrapped in `Option`: the source
compares the result against `-1`, which corresponds to `none` here; a hit
returns the first index at which the element occurs. -/
def indexOfStr (x : String) : List String → Option Nat
  | [] => none
  | a :: l => if a == x then some 0 else (indexOfStr x l).map (fun n => n + 1)

/-- The derived story title:
`frontmatter.role ? «As a ROLE, I want to ACTION» : frontmatter.title`
(note the story-title template has no benefit clause and no final period). -/
def derivedTitle (fm : Frontmatter) : Option String :=
  if truthy fm.role then
    some ("As a " ++ interp fm.role ++ ", I want to " ++ interp fm.action)
  else fm.title

/-- A story record as assembled by the `storyFiles.map` callback
(`MDStoryWithEpic` in the source; `labelId`/`parentIssueId` are the two
fields of its `epic` member). -/
structure StoryWithEpic where
  title : String
  frontmatter : Frontmatter
  description : String
  priority : Nat
  labelId : Option String
  parentIssueId : String
deriving DecidableEq, Repr

/-- Validation and assembly of one story file, in source order: manifest
lookup first (`priorityOrder.indexOf`, a miss throws), then the derived
title (`role` truthy gives the narrative sentence, else the frontmatter
title; a falsy result throws), then the record is built, reading
`labelsByName.get(frontmatter.label)` for the label id and
`epics[epicNumber].issueId` for the parent issue id (an absent epic key
makes that property access throw). -/
def buildStory (lbn : List (Option String × String))
    (epics2 : List (String × EpicEntry)) (priorityOrder : List String)
    (f : MDFile) : Except RunError StoryWithEpic :=
  let epicNumber := storyEpicKeyOf f.name
  let storyId := storyIdOf f.name
  match indexOfStr storyId priorityOrder with
  | none => .error (.orderingError f.name)
  | some priorityIndex =>
    let priority := priorityIndex + 1
    let title : Option String := derivedTitle f.frontmatter
    if truthy title = false then .error (.titleError f.name)
    else
      match getKey epics2 epicNumber with
      | none => .error .undefinedEpicError
      | some entry =>
        .ok ⟨title.getD "", f.frontmatter, f.description, priority,
          getKey lbn f.frontmatter.label, entry.issueId⟩

/-- `storyFiles.map(...)` with JS exception semantics: the first failing
file aborts the whole map. -/
def buildStories (lbn : List (Option String × String))
    (epics2 : List (String × EpicEntry)) (priorityOrder : List String) :
    List MDFile → Except RunError (List StoryWithEpic)
  | [] => .ok []
  | f :: fs =>
    match buildStory lbn epics2 priorityOrder f with
    | .error e => .error e
    | .ok s =>
      match buildStories lbn epics2 priorityOrder fs with
      | .error e => .error e
      | .ok ss => .ok (s :: ss)

/-- The story records of the run, in story-file order, or the first
validation error. -/
def storiesBuilt (i : Input) (env : Env) : Except RunError (List StoryWithEpic) :=
  buildStories (lbnOf env i) (epicsFinal i env) i.priorityOrder (mdStoryFiles i)

/-- Embedding of `storiesWithEpic.sort((a, b) => a.priority - b.priority)`:
a stable sort ascending by priority (JS `Array.prototype.sort` is required
to be stable, and the comparator orders by the `priority` field). -/
def sortByPriority (l : List StoryWithEpic) : List StoryWithEpic :=
  List.insertionSort (fun a b => a.priority ≤ b.priority) l

/-- The sorted story sequence of the run. -/
def sortedStories (i : Input) (env : Env) : Except RunError (List StoryWithEpic) :=
  (storiesBuilt i env).map sortByPriority

/-- The story body: the narrative sentence followed by a blank line when
`role` is truthy, then the description. -/
def storyBody (s : StoryWithEpic) : String :=
  (if truthy s.frontmatter.role then
    "As a " ++ interp s.frontmatter.role ++ ", I want to " ++
      interp s.frontmatter.action ++ " so that " ++
      interp s.frontmatter.benefit ++ ".\n\n"
  else "") ++ s.description

/-- The `createIssueAddToProject` call made for one story. -/
def storyEvent (s : StoryWithEpic) : Event :=
  .createIssueAddToProject s.parentIssueId s.title (storyBody s) s.labelId

/-- Outcome of a run: the trace of tracker calls made, and the error that
aborted the run, if any. -/
structure RunResult where
  events : List Event
  error : Option RunError
deriving DecidableEq, Repr

/-- The whole `createIssues` pipeline: build the epics mapping, resolve the
deduplicated labels, create the epic issues, validate and order the
stories, then create each story in ascending priority order. The trace
keeps every call made before an abort. -/
def createIssues (i : Input) (env : Env) : RunResult :=
  match epicError i env with
  | some err => ⟨labelEvents i ++ epicEvents i env, some err⟩
  | none =>
    match storiesBuilt i env with
    | .error err => ⟨labelEvents i ++ epicEvents i env, some err⟩
    | .ok stories =>
      ⟨labelEvents i ++ epicEvents i env ++
        (sortByPriority stories).map storyEvent, none⟩

/-! ### Association-list lemmas -/

/-- `find?` distributes over append, first list first. -/
theorem find?_append {β : Type} (m l : List β) (p : β → Bool) :
    (m ++ l).find? p = Option.or (m.find? p) (l.find? p) := by
  induction m with
  | nil => simp [Option.or]
  | cons a m ih =>
    by_cases h : p a
    · simp [List.find?, h, Option.or]
    · simp only [List.cons_append, List.find?, h]
      exact ih

/-- Overwriting an existing key: looking the key up in the rewritten list
finds the new value, provided the key occurs. -/
theorem find?_map_overwrite {κ α : Type} [BEq κ] [LawfulBEq κ]
    (m : List (κ × α)) (k : κ) (v : α)
    (h : m.any (fun p => p.1 == k) = true) :
    (m.map (fun p => if p.1 == k then (k, v) else p)).find?
      (fun p => p.1 == k) = some (k, v) := by
  induction m with
  | nil => simp at h
  | cons a m ih =>
    by_cases ha : (a.1 == k) = true
    · rw [List.map_cons, if_pos ha]
      simp [List.find?]
    · have ha' : (a.1 == k) = false := by simpa using ha
      simp only [List.any_cons, ha', Bool.false_or] at h
      rw [List.map_cons, if_neg ha]
      simp only [List.find?, ha']
      exact ih h

/-- Overwriting key `k` does not change lookups of a different key. -/
theorem find?_map_overwrite_other {κ α : Type} [BEq κ] [LawfulBEq κ]
    (m : List (κ × α)) (k k' : κ) (v : α) (hk : (k == k') = false) :
    (m.map (fun p => if p.1 == k then (k, v) else p)).find?
      (fun p => p.1 == k') = m.find? (fun p => p.1 == k') := by
  induction m with
  | nil => simp
  | cons a m ih =>
    by_cases ha : (a.1 == k) = true
    · have ha' : a.1 = k := eq_of_beq ha
      rw [List.map_cons, if_pos ha]
      simp only [List.find?, ha', hk]
      exact ih
    · rw [List.map_cons, if_neg ha]
      by_cases hb : (a.1 == k') = true
      · simp [List.find?, hb]
      · have hb' : (a.1 == k') = false := by simpa using hb
        simp only [List.find?, hb']
        exact ih

/-- Looking up the key just set finds the new value. -/
theorem getKey_setKey_same {κ α : Type} [BEq κ] [LawfulBEq κ]
    (m : List (κ × α)) (k : κ) (v : α) :
    getKey (setKey m k v) k = some v := by
  unfold setKey getKey
  by_cases h : m.any (fun p => p.1 == k) = true
  · rw [if_pos h, find?_map_overwrite m k v h]
    rfl
  · rw [if_neg h, find?_append]
    have hnone : m.find? (fun p => p.1 == k) = none := by
      rw [List.find?_eq_none]
      intro x hx
      intro hpx
      exact h (List.any_of_mem hx hpx)
    rw [hnone]
    simp [List.find?, Option.or]

/-- Setting key `k` does not change lookups of a different key. -/
theorem getKey_setKey_other {κ α : Type} [BEq κ] [LawfulBEq κ]
    (m : List (κ × α)) (k k' : κ) (v : α) (hk : k' ≠ k) :
    getKey (setKey m k v) k' = getKey m k' := by
  have hkb : (k == k') = false := by
    rw [beq_eq_false_iff_ne]
    exact fun hc => hk hc.symm
  unfold setKey getKey
  by_cases h : m.any (fun p => p.1 == k) = true
  · rw [if_pos h, find?_map_overwrite_other m k k' v hkb]
  · rw [if_neg h, find?_append]
    have : List.find? (fun p => p.1 == k') [(k, v)] = none := by
      simp [List.find?, hkb]
    rw [this]
    cases m.find? (fun p => p.1 == k') <;> rfl

/-- Lookup after `setKey`, combined form. -/
theorem getKey_setKey {κ α : Type} [BEq κ] [LawfulBEq κ]
    (m : List (κ × α)) (k k' : κ) (v : α) :
    getKey (setKey m k v) k' = if k' == k then some v else getKey m k' := by
  by_cases h : (k' == k) = true
  · have : k' = k := eq_of_beq h
    subst this
    simp [h, getKey_setKey_same]
  · simp only [h, if_false]
    exact getKey_setKey_other m k k' v (by
      intro hc
      subst hc
      simp at h)

/-- `setKey` leaves the key list unchanged when the key is present and
appends it otherwise. -/
theorem keys_setKey {κ α : Type} [BEq κ] [LawfulBEq κ]
    (m : List (κ × α)) (k : κ) (v : α) :
    (setKey m k v).map Prod.fst =
      if m.any (fun p => p.1 == k) then m.map Prod.fst
      else m.map Prod.fst ++ [k] := by
  unfold setKey
  by_cases h : m.any (fun p => p.1 == k) = true
  · rw [if_pos h, if_pos h, List.map_map]
    apply List.map_congr_left
    intro p _
    by_cases hp : (p.1 == k) = true
    · simp only [Function.comp, hp, if_true]
      exact (eq_of_beq hp).symm
    · simp [Function.comp, hp]
  · rw [if_neg h, if_neg h, List.map_append]
    rfl

/-- `setKey` preserves key distinctness. -/
theorem nodup_keys_setKey {κ α : Type} [BEq κ] [LawfulBEq κ]
    (m : List (κ × α)) (k : κ) (v : α)
    (h : (m.map Prod.fst).Nodup) : ((setKey m k v).map Prod.fst).Nodup := by
  rw [keys_setKey]
  by_cases hany : m.any (fun p => p.1 == k) = true
  · rwa [if_pos hany]
  · rw [if_neg hany]
    have hk : k ∉ m.map Prod.fst := by
      intro hmem
      obtain ⟨p, hp, hpk⟩ := List.mem_map.mp hmem
      exact hany (List.any_of_mem hp (by simp [hpk]))
    simp [List.nodup_append, h, hk]

/-- A key is present exactly when its lookup succeeds. -/
theorem getKey_isSome_iff {κ α : Type} [BEq κ] [LawfulBEq κ]
    (m : List (κ × α)) (k : κ) :
    (getKey m k).isSome = true ↔ k ∈ m.map Prod.fst := by
  unfold getKey
  constructor
  · intro h
    cases hf : List.find? (fun p => p.1 == k) m with
    | none => rw [hf] at h; simp at h
    | some p =>
      have hpk := List.find?_some hf
      have hmem := List.mem_of_find?_eq_some hf
      exact List.mem_map.mpr ⟨p, hmem, eq_of_beq hpk⟩
  · intro hmem
    obtain ⟨p, hp, hpk⟩ := List.mem_map.mp hmem
    have hex : ∃ x ∈ m, (fun p => p.1 == k) x = true := ⟨p, hp, by simp [hpk]⟩
    have hs := List.find?_isSome.mpr hex
    cases hf : List.find? (fun p => p.1 == k) m with
    | none => rw [hf] at hs; simp at hs
    | some q => simp [hf]

/-! ### Label-list lemmas -/

/-- Membership in the deduplication worker: kept iff present in the rest of
the list and not seen before. -/
theorem mem_dedupFirstAux (seen l : List (Option String)) (a : Option String) :
    a ∈ dedupFirstAux seen l ↔ a ∈ l ∧ a ∉ seen := by
  induction l generalizing seen with
  | nil => simp [dedupFirstAux]
  | cons b l ih =>
    by_cases hb : b ∈ seen
    · simp only [dedupFirstAux, if_pos hb, ih, List.mem_cons]
      constructor
      · rintro ⟨h1, h2⟩
        exact ⟨Or.inr h1, h2⟩
      · rintro ⟨h1 | h1, h2⟩
        · subst h1
          exact absurd hb h2
        · exact ⟨h1, h2⟩
    · simp only [dedupFirstAux, if_neg hb, List.mem_cons, ih]
      constructor
      · rintro (h1 | ⟨h1, h2⟩)
        · subst h1
          exact ⟨Or.inl rfl, hb⟩
        · exact ⟨Or.inr h1, fun hc => h2 (Or.inr hc)⟩
      · rintro ⟨h1 | h1, h2⟩
        · exact Or.inl h1
        · by_cases hab : a = b
          · exact Or.inl hab
          · exact Or.inr ⟨h1, fun hc => by
              rcases hc with hc | hc
              · exact hab hc
              · exact h2 hc⟩

/-- The deduplication worker returns a duplicate-free list. -/
theorem nodup_dedupFirstAux (seen l : List (Option String)) :
    (dedupFirstAux seen l).Nodup := by
  induction l generalizing seen with
  | nil => simp [dedupFirstAux]
  | cons b l ih =>
    by_cases hb : b ∈ seen
    · simpa [dedupFirstAux, if_pos hb] using ih seen
    · simp only [dedupFirstAux, if_neg hb]
      rw [List.nodup_cons]
      refine ⟨?_, ih (b :: seen)⟩
      intro hmem
      rw [mem_dedupFirstAux] at hmem
      exact hmem.2 (List.mem_cons_self b seen)

/-- Deduplication preserves membership. -/
theorem mem_dedupFirst (l : List (Option String)) (a : Option String) :
    a ∈ dedupFirst l ↔ a ∈ l := by
  simp [dedupFirst, mem_dedupFirstAux]

/-- The deduplicated list has no duplicates. -/
theorem nodup_dedupFirst (l : List (Option String)) : (dedupFirst l).Nodup :=
  nodup_dedupFirstAux [] l

/-- A name is in the label list exactly when it is some epic's label value
or the reserved name "Epic". -/
theorem mem_labelList (i : Input) (n : Option String) :
    n ∈ labelList i ↔
      (∃ p ∈ epicsMap i, p.2.epic.frontmatter.label = n) ∨ n = some "Epic" := by
  unfold labelList labelNames
  rw [mem_dedupFirst]
  simp [List.mem_append, List.mem_map]

/-- Lookup in the fold that builds `labelsByName`. -/
theorem getKey_labelsByName_go (env : Env) (names : List (Option String))
    (m : List (Option String × String)) (n : Option String) :
    getKey (names.foldl (fun m x => setKey m x (env.labelId x)) m) n =
      if n ∈ names then some (env.labelId n) else getKey m n := by
  induction names generalizing m with
  | nil => simp
  | cons a names ih =>
    rw [List.foldl_cons, ih]
    by_cases hn : n ∈ names
    · rw [if_pos hn, if_pos (List.mem_cons.mpr (Or.inr hn))]
    · rw [if_neg hn]
      by_cases hna : n = a
      · subst hna
        rw [getKey_setKey_same, if_pos (List.mem_cons_self n names)]
      · rw [getKey_setKey_other _ _ _ _ hna, if_neg (by simp [hna, hn])]

/-- `labelsByName` resolves exactly the names of the label list, each to the
tracker-assigned id for that name. -/
theorem getKey_lbnOf (env : Env) (i : Input) (n : Option String) :
    getKey (lbnOf env i) n =
      if n ∈ labelList i then some (env.labelId n) else none := by
  unfold lbnOf labelsByName
  rw [getKey_labelsByName_go]
  simp [getKey]

/-- The reserved "Epic" label always resolves. -/
theorem getKey_lbnOf_epic (env : Env) (i : Input) :
    getKey (lbnOf env i) (some "Epic") = some (env.labelId (some "Epic")) := by
  rw [getKey_lbnOf, if_pos]
  rw [mem_labelList]
  exact Or.inr rfl

/-! ### Epic-phase lemmas -/

/-- The epic loop never aborts once the "Epic" label resolves. -/
theorem runEpics_error_none (env : Env) (lbn : List (Option String × String))
    (lid : String) (h : getKey lbn (some "Epic") = some lid) :
    ∀ (entries : List (String × EpicEntry)) (n : Nat),
      (runEpics env lbn entries n).2.2 = none := by
  intro entries
  induction entries with
  | nil => intro n; rfl
  | cons p rest ih =>
    intro n
    obtain ⟨k, e⟩ := p
    simp only [runEpics, h]
    exact ih (n + 1)

/-- The events of the epic loop: one `createIssue` per entry, in order,
with the entry's raw title, the epic body, and the "Epic" label id. -/
theorem runEpics_events (env : Env) (lbn : List (Option String × String))
    (lid : String) (h : getKey lbn (some "Epic") = some lid) :
    ∀ (entries : List (String × EpicEntry)) (n : Nat),
      (runEpics env lbn entries n).2.1 = entries.map (fun p =>
        Event.createIssue p.2.epic.frontmatter.title
          (epicBody p.2.epic.frontmatter) lid) := by
  intro entries
  induction entries with
  | nil => intro n; rfl
  | cons p rest ih =>
    intro n
    obtain ⟨k, e⟩ := p
    simp only [runEpics, h, List.map_cons]
    rw [ih (n + 1)]

/-- The epic loop preserves the keys of the mapping. -/
theorem runEpics_keys (env : Env) (lbn : List (Option String × String))
    (lid : String) (h : getKey lbn (some "Epic") = some lid) :
    ∀ (entries : List (String × EpicEntry)) (n : Nat),
      (runEpics env lbn entries n).1.map Prod.fst = entries.map Prod.fst := by
  intro entries
  induction entries with
  | nil => intro n; rfl
  | cons p rest ih =>
    intro n
    obtain ⟨k, e⟩ := p
    simp only [runEpics, h, List.map_cons]
    rw [ih (n + 1)]

/-- The epic phase of a run never fails. -/
theorem epicError_none (i : Input) (env : Env) : epicError i env = none :=
  runEpics_error_none env (lbnOf env i) (env.labelId (some "Epic"))
    (getKey_lbnOf_epic env i) (epicsMap i) 0

/-- The epic events of a run, in closed form. -/
theorem epicEvents_eq (i : Input) (env : Env) :
    epicEvents i env = (epicsMap i).map (fun p =>
      Event.createIssue p.2.epic.frontmatter.title
        (epicBody p.2.epic.frontmatter) (env.labelId (some "Epic"))) :=
  runEpics_events env (lbnOf env i) (env.labelId (some "Epic"))
    (getKey_lbnOf_epic env i) (epicsMap i) 0

/-- Keys of the mapping after the epic loop. -/
theorem epicsFinal_keys (i : Input) (env : Env) :
    (epicsFinal i env).map Prod.fst = (epicsMap i).map Prod.fst :=
  runEpics_keys env (lbnOf env i) (env.labelId (some "Epic"))
    (getKey_lbnOf_epic env i) (epicsMap i) 0

/-- `createIssues` always reaches the story phase; its result is decided by
`storiesBuilt`. -/
theorem createIssues_eq (i : Input) (env : Env) :
    createIssues i env =
      match storiesBuilt i env with
      | .error err => ⟨labelEvents i ++ epicEvents i env, some err⟩
      | .ok stories =>
        ⟨labelEvents i ++ epicEvents i env ++
          (sortByPriority stories).map storyEvent, none⟩ := by
  unfold createIssues
  rw [epicError_none]

/-! ### Epics-map lemmas -/

/-- Lookup in the fold that builds the epics mapping: the record of the
last file assigned to the key wins. -/
theorem getKey_epicsInit_go (files : List MDFile)
    (m : List (String × EpicEntry)) (k : String) :
    getKey (files.foldl (fun m f => setKey m (epicKeyOf f.name) (entryOf f)) m) k =
      Option.or
        (((files.filter (fun f => epicKeyOf f.name == k)).getLast?).map entryOf)
        (getKey m k) := by
  induction files generalizing m with
  | nil => simp [Option.or]
  | cons f fs ih =>
    rw [List.foldl_cons, ih]
    by_cases hk : (epicKeyOf f.name == k) = true
    · have hk' : epicKeyOf f.name = k := eq_of_beq hk
      simp only [List.filter_cons, hk, if_true]
      rw [hk', getKey_setKey_same]
      cases hfs : fs.filter (fun f => epicKeyOf f.name == k) with
      | nil => simp [Option.or]
      | cons g gs =>
        have hne : g :: gs ≠ [] := by simp
        obtain ⟨x, hx⟩ := Option.isSome_iff_exists.mp (List.getLast?_isSome.mpr hne)
        rw [List.getLast?_cons_cons, hx]
        simp [Option.or]
    · have hkf : (epicKeyOf f.name == k) = false := by simpa using hk
      have hk2 : epicKeyOf f.name ≠ k := by
        intro hc
        rw [hc] at hkf
        simp at hkf
      simp only [List.filter_cons, hkf, Bool.false_eq_true, if_false]
      rw [getKey_setKey_other _ _ _ _ (fun hc => hk2 hc.symm)]

/-- The epics mapping keeps, for every key, the record parsed from the last
`.md` file in directory order whose derived key equals it. -/
theorem getKey_epicsMap (i : Input) (k : String) :
    getKey (epicsMap i) k =
      (((mdEpicFiles i).filter (fun f => epicKeyOf f.name == k)).getLast?).map
        entryOf := by
  unfold epicsMap epicsInit
  rw [getKey_epicsInit_go]
  have h0 : getKey ([] : List (String × EpicEntry)) k = none := rfl
  rw [h0, Option.or_none]

/-- Key distinctness is an invariant of the fold building the mapping. -/
theorem nodup_keys_epicsInit_go (files : List MDFile)
    (m : List (String × EpicEntry)) (h : (m.map Prod.fst).Nodup) :
    ((files.foldl (fun m f => setKey m (epicKeyOf f.name) (entryOf f)) m).map
      Prod.fst).Nodup := by
  induction files generalizing m with
  | nil => exact h
  | cons f fs ih =>
    rw [List.foldl_cons]
    exact ih _ (nodup_keys_setKey _ _ _ h)

/-- The epics mapping has pairwise-distinct keys. -/
theorem nodup_keys_epicsMap (i : Input) :
    ((epicsMap i).map Prod.fst).Nodup :=
  nodup_keys_epicsInit_go _ [] (by simp)

/-! ### Story-phase lemmas -/

/-- A story absent from the manifest fails immediately with the ordering
error naming its file; the manifest check is the first check performed. -/
theorem buildStory_of_miss (lbn : List (Option String × String))
    (e2 : List (String × EpicEntry)) (po : List String) (f : MDFile)
    (h : indexOfStr (storyIdOf f.name) po = none) :
    buildStory lbn e2 po f = .error (.orderingError f.name) := by
  simp only [buildStory, h]

/-- A story with a falsy derived title fails with the title error naming
its file, once the manifest check passed. -/
theorem buildStory_of_titleless (lbn : List (Option String × String))
    (e2 : List (String × EpicEntry)) (po : List String) (f : MDFile) (k : Nat)
    (hidx : indexOfStr (storyIdOf f.name) po = some k)
    (ht : truthy (derivedTitle f.frontmatter) = false) :
    buildStory lbn e2 po f = .error (.titleError f.name) := by
  simp only [buildStory, hidx, ht]
  simp

/-- A story whose epic key is absent from the mapping fails with the
undefined-property error, once manifest and title checks passed. -/
theorem buildStory_of_noEpic (lbn : List (Option String × String))
    (e2 : List (String × EpicEntry)) (po : List String) (f : MDFile) (k : Nat)
    (hidx : indexOfStr (storyIdOf f.name) po = some k)
    (ht : truthy (derivedTitle f.frontmatter) = true)
    (hkey : getKey e2 (storyEpicKeyOf f.name) = none) :
    buildStory lbn e2 po f = .error .undefinedEpicError := by
  simp only [buildStory, hidx, hkey]
  rw [if_neg (by simp [ht])]

/-- The successful path of a story build, in closed form. -/
theorem buildStory_of_ok (lbn : List (Option String × String))
    (e2 : List (String × EpicEntry)) (po : List String) (f : MDFile)
    (k : Nat) (entry : EpicEntry)
    (hidx : indexOfStr (storyIdOf f.name) po = some k)
    (ht : truthy (derivedTitle f.frontmatter) = true)
    (hkey : getKey e2 (storyEpicKeyOf f.name) = some entry) :
    buildStory lbn e2 po f =
      .ok ⟨(derivedTitle f.frontmatter).getD "", f.frontmatter, f.description,
        k + 1, getKey lbn f.frontmatter.label, entry.issueId⟩ := by
  simp only [buildStory, hidx, hkey]
  rw [if_neg (by simp [ht])]

/-- Inversion of a successful story build: the record's fields in terms of
the file and the run artifacts. -/
theorem buildStory_ok_inv (lbn : List (Option String × String))
    (e2 : List (String × EpicEntry)) (po : List String) (f : MDFile)
    (s : StoryWithEpic) (h : buildStory lbn e2 po f = .ok s) :
    ∃ k entry,
      indexOfStr (storyIdOf f.name) po = some k ∧
      truthy (derivedTitle f.frontmatter) = true ∧
      getKey e2 (storyEpicKeyOf f.name) = some entry ∧
      s = ⟨(derivedTitle f.frontmatter).getD "", f.frontmatter, f.description,
        k + 1, getKey lbn f.frontmatter.label, entry.issueId⟩ := by
  cases hidx : indexOfStr (storyIdOf f.name) po with
  | none =>
    rw [buildStory_of_miss _ _ _ _ hidx] at h
    exact absurd h (by simp)
  | some k =>
    by_cases ht : truthy (derivedTitle f.frontmatter) = false
    · rw [buildStory_of_titleless _ _ _ _ _ hidx ht] at h
      exact absurd h (by simp)
    · have ht' : truthy (derivedTitle f.frontmatter) = true := by simpa using ht
      cases hkey : getKey e2 (storyEpicKeyOf f.name) with
      | none =>
        rw [buildStory_of_noEpic _ _ _ _ _ hidx ht' hkey] at h
        exact absurd h (by simp)
      | some entry =>
        rw [buildStory_of_ok _ _ _ _ _ _ hidx ht' hkey] at h
        simp only [Except.ok.injEq] at h
        exact ⟨k, entry, rfl, ht', rfl, h.symm⟩

/-- Forall₂ gives, for every member of the left list, a related member of
the right list. -/
theorem forall₂_exists_right {α β : Type} {R : α → β → Prop} :
    ∀ {l1 : List α} {l2 : List β}, List.Forall₂ R l1 l2 →
      ∀ {a : α}, a ∈ l1 → ∃ b ∈ l2, R a b := by
  intro l1 l2 h
  induction h with
  | nil => intro a ha; cases ha
  | cons h1 h2 ih =>
    intro a ha
    rcases List.mem_cons.mp ha with ha | ha
    · subst ha
      exact ⟨_, List.mem_cons_self _ _, h1⟩
    · obtain ⟨b, hb, hr⟩ := ih ha
      exact ⟨b, List.mem_cons.mpr (Or.inr hb), hr⟩

/-- Forall₂ gives, for every member of the right list, a related member of
the left list. -/
theorem forall₂_exists_left {α β : Type} {R : α → β → Prop} :
    ∀ {l1 : List α} {l2 : List β}, List.Forall₂ R l1 l2 →
      ∀ {b : β}, b ∈ l2 → ∃ a ∈ l1, R a b := by
  intro l1 l2 h
  induction h with
  | nil => intro b hb; cases hb
  | cons h1 h2 ih =>
    intro b hb
    rcases List.mem_cons.mp hb with hb | hb
    · subst hb
      exact ⟨_, List.mem_cons_self _ _, h1⟩
    · obtain ⟨a, ha, hr⟩ := ih hb
      exact ⟨a, List.mem_cons.mpr (Or.inr ha), hr⟩

/-- A successful `buildStories` is exactly an elementwise-successful map,
in file order. -/
theorem buildStories_ok_iff (lbn : List (Option String × String))
    (e2 : List (String × EpicEntry)) (po : List String) :
    ∀ (fs : List MDFile) (l : List StoryWithEpic),
      buildStories lbn e2 po fs = .ok l ↔
        List.Forall₂ (fun f s => buildStory lbn e2 po f = .ok s) fs l := by
  intro fs
  induction fs with
  | nil =>
    intro l
    constructor
    · intro h
      simp only [buildStories, Except.ok.injEq] at h
      subst h
      exact List.Forall₂.nil
    · intro h
      cases h
      rfl
  | cons f fs ih =>
    intro l
    constructor
    · intro h
      simp only [buildStories] at h
      cases hs : buildStory lbn e2 po f with
      | error e => rw [hs] at h; exact absurd h (by simp)
      | ok s =>
        rw [hs] at h
        cases hss : buildStories lbn e2 po fs with
        | error e => rw [hss] at h; exact absurd h (by simp)
        | ok ss =>
          rw [hss] at h
          simp only [Except.ok.injEq] at h
          subst h
          exact List.Forall₂.cons hs ((ih ss).mp hss)
    · intro h
      cases h with
      | cons h1 h2 =>
        simp only [buildStories, h1]
        rw [(ih _).mpr h2]

/-- If some member of the file list cannot build, `buildStories` fails. -/
theorem buildStories_error_of_mem (lbn : List (Option String × String))
    (e2 : List (String × EpicEntry)) (po : List String) (fs : List MDFile)
    (f : MDFile) (hf : f ∈ fs)
    (herr : ∀ s, buildStory lbn e2 po f ≠ .ok s) :
    ∃ e, buildStories lbn e2 po fs = .error e := by
  cases hres : buildStories lbn e2 po fs with
  | error e => exact ⟨e, rfl⟩
  | ok l =>
    rw [buildStories_ok_iff] at hres
    obtain ⟨s, _, hrel⟩ := forall₂_exists_right hres hf
    exact absurd hrel (herr s)

/-- When every file before `f` builds successfully and `f` fails,
`buildStories` fails with exactly `f`'s error. -/
theorem buildStories_append_error (lbn : List (Option String × String))
    (e2 : List (String × EpicEntry)) (po : List String)
    (pre post : List MDFile) (f : MDFile) (e : RunError)
    (hpre : ∀ g ∈ pre, ∃ s, buildStory lbn e2 po g = .ok s)
    (hf : buildStory lbn e2 po f = .error e) :
    buildStories lbn e2 po (pre ++ f :: post) = .error e := by
  induction pre with
  | nil => simp only [List.nil_append, buildStories, hf]
  | cons g pre ih =>
    obtain ⟨s, hs⟩ := hpre g (List.mem_cons_self g pre)
    simp only [List.cons_append, buildStories, hs]
    rw [List.append_eq, ih (fun g hg => hpre g (List.mem_cons.mpr (Or.inr hg)))]

/-- The sort is a permutation of its input. -/
theorem sortByPriority_perm (l : List StoryWithEpic) :
    List.Perm (sortByPriority l) l :=
  List.perm_insertionSort _ l

/-- The sort output ascends (weakly) in priority. -/
theorem sortByPriority_sorted (l : List StoryWithEpic) :
    (sortByPriority l).Pairwise (fun a b => a.priority ≤ b.priority) := by
  haveI : IsTotal StoryWithEpic (fun a b => a.priority ≤ b.priority) :=
    ⟨fun a b => Nat.le_total _ _⟩
  haveI : IsTrans StoryWithEpic (fun a b => a.priority ≤ b.priority) :=
    ⟨fun a b c hab hbc => Nat.le_trans hab hbc⟩
  exact List.sorted_insertionSort _ l

/-- Weak ascent plus pairwise-distinct priorities give strict ascent. -/
theorem pairwise_lt_of_le_nodup {l : List StoryWithEpic}
    (hle : l.Pairwise (fun a b => a.priority ≤ b.priority))
    (hnd : (l.map (fun s => s.priority)).Nodup) :
    l.Pairwise (fun a b => a.priority < b.priority) := by
  have h2 : l.Pairwise (fun a b => a.priority ≠ b.priority) :=
    List.pairwise_map.mp hnd
  exact (hle.and h2).imp (fun h => lt_of_le_of_ne h.1 h.2)

/-- A hit of the first-index search reads back the searched string. -/
theorem indexOfStr_getElem (x : String) :
    ∀ (po : List String) (k : Nat),
      indexOfStr x po = some k → po[k]? = some x := by
  intro po
  induction po with
  | nil =>
    intro k h
    rw [show indexOfStr x [] = none from rfl] at h
    cases h
  | cons a l ih =>
    intro k h
    by_cases ha : (a == x) = true
    · simp only [indexOfStr, ha, if_true, Option.some.injEq] at h
      subst h
      simp [eq_of_beq ha]
    · simp only [indexOfStr, ha, if_false] at h
      cases hi : indexOfStr x l with
      | none => rw [hi] at h; simp at h
      | some j =>
        rw [hi] at h
        simp at h
        subst h
        simpa using ih j hi

/-- Two strings found at the same first index are equal. -/
theorem indexOfStr_inj (po : List String) (x y : String) (k : Nat)
    (hx : indexOfStr x po = some k) (hy : indexOfStr y po = some k) :
    x = y := by
  have h1 := indexOfStr_getElem x po k hx
  have h2 := indexOfStr_getElem y po k hy
  rw [h1] at h2
  simpa using h2

/-- Distinct story ids yield pairwise-distinct priorities. -/
theorem priorities_nodup (lbn : List (Option String × String))
    (e2 : List (String × EpicEntry)) (po : List String) :
    ∀ (files : List MDFile) (l : List StoryWithEpic),
      List.Forall₂ (fun f s => buildStory lbn e2 po f = .ok s) files l →
      ((files.map (fun f => storyIdOf f.name)).Nodup) →
      ((l.map (fun s => s.priority)).Nodup) := by
  intro files l h
  induction h with
  | nil => intro _; simp
  | @cons f s fs l2 hfs hrest ih =>
    intro hnd
    rw [List.map_cons, List.nodup_cons] at hnd ⊢
    obtain ⟨hnotin, hnd2⟩ := hnd
    refine ⟨?_, ih hnd2⟩
    intro hmem
    obtain ⟨s', hs', hps⟩ := List.mem_map.mp hmem
    obtain ⟨f', hf', hrel'⟩ := forall₂_exists_left hrest hs'
    obtain ⟨k1, e1, hidx1, _, _, hsval1⟩ := buildStory_ok_inv _ _ _ _ _ hrel'
    obtain ⟨k2, e2x, hidx2, _, _, hsval2⟩ := buildStory_ok_inv _ _ _ _ _ hfs
    have hp1 : s'.priority = k1 + 1 := by rw [hsval1]
    have hp2 : s.priority = k2 + 1 := by rw [hsval2]
    have hk : k1 = k2 := by
      have := hps
      rw [hp1, hp2] at this
      omega
    subst hk
    have hid : storyIdOf f'.name = storyIdOf f.name :=
      indexOfStr_inj po _ _ k1 hidx1 hidx2
    exact hnotin (List.mem_map.mpr ⟨f', hf', hid⟩)

/-! ### Run-level helpers -/

/-- Run result when story validation fails. -/
theorem createIssues_of_error (i : Input) (env : Env) (e : RunError)
    (h : storiesBuilt i env = .error e) :
    createIssues i env = ⟨labelEvents i ++ epicEvents i env, some e⟩ := by
  rw [createIssues_eq, h]

/-- Run result when story validation succeeds. -/
theorem createIssues_of_ok (i : Input) (env : Env)
    (stories : List StoryWithEpic) (h : storiesBuilt i env = .ok stories) :
    createIssues i env =
      ⟨labelEvents i ++ epicEvents i env ++
        (sortByPriority stories).map storyEvent, none⟩ := by
  rw [createIssues_eq, h]

/-- Label events are not story-creation calls. -/
theorem labelEvents_not_story (i : Input) :
    ∀ e ∈ labelEvents i, e.isStoryCreate = false := by
  intro e he
  obtain ⟨n, _, rfl⟩ := List.mem_map.mp he
  rfl

/-- Epic events are not story-creation calls. -/
theorem epicEvents_not_story (i : Input) (env : Env) :
    ∀ e ∈ epicEvents i env, e.isStoryCreate = false := by
  intro e he
  rw [epicEvents_eq] at he
  obtain ⟨p, _, rfl⟩ := List.mem_map.mp he
  rfl

/-- The label list is duplicate-free. -/
theorem nodup_labelList (i : Input) : (labelList i).Nodup :=
  nodup_dedupFirstAux [] _

/-- In a duplicate-free list, a member is counted exactly once. -/
theorem count_one_of_nodup_mem {α : Type} [BEq α] [LawfulBEq α]
    {l : List α} {a : α} (hnd : l.Nodup) (hm : a ∈ l) : l.count a = 1 := by
  induction l with
  | nil => cases hm
  | cons b l ih =>
    rw [List.nodup_cons] at hnd
    rcases List.mem_cons.mp hm with h | h
    · subst h
      rw [List.count_cons_self, List.count_eq_zero.mpr hnd.1]
    · have hne : a ≠ b := fun hc => by
        subst hc
        exact absurd h hnd.1
      rw [List.count_cons_of_ne hne, ih hnd.2 h]

/-- Counting a label event in the mapped label list counts the name. -/
theorem count_map_createLabel (n : Option String) :
    ∀ (names : List (Option String)),
      (names.map Event.createLabel).count (Event.createLabel n) =
        names.count n := by
  intro names
  induction names with
  | nil => rfl
  | cons a l ih =>
    rw [List.map_cons]
    by_cases ha : a = n
    · subst ha
      rw [List.count_cons_self, List.count_cons_self, ih]
    · rw [List.count_cons_of_ne (fun hc => ha (Event.createLabel.inj hc).symm),
        List.count_cons_of_ne (fun hc => ha hc.symm), ih]

/-! ### Claims -/

/-- C3: The set of label names resolved against the tracker equals the
union of every epic's label value and the single reserved name "Epic", and
exactly one `createLabelIfNotExists` call is made per distinct name,
regardless of how many epics share a label. Formally: in every run, the
number of `createLabel n` events is 1 when `n` is the label value of some
record of the epics mapping or the reserved name, and 0 otherwise (an epic
record without a label field contributes its literal `undefined` value,
matching the spec's set former over `epic.label`). -/
theorem c3_label_resolution (i : Input) (env : Env) (n : Option String) :
    (createIssues i env).events.count (Event.createLabel n) =
      if (∃ p ∈ epicsMap i, p.2.epic.frontmatter.label = n) ∨ n = some "Epic"
      then 1 else 0 := by
  have hlab : (labelEvents i).count (Event.createLabel n) = (labelList i).count n :=
    count_map_createLabel n (labelList i)
  have hepic : (epicEvents i env).count (Event.createLabel n) = 0 := by
    rw [List.count_eq_zero]
    intro hmem
    rw [epicEvents_eq] at hmem
    obtain ⟨p, _, hp⟩ := List.mem_map.mp hmem
    exact absurd hp (by simp)
  have hcnt : (labelList i).count n =
      if (∃ p ∈ epicsMap i, p.2.epic.frontmatter.label = n) ∨ n = some "Epic"
      then 1 else 0 := by
    by_cases hmem : n ∈ labelList i
    · rw [if_pos ((mem_labelList i n).mp hmem)]
      exact count_one_of_nodup_mem (nodup_labelList i) hmem
    · rw [if_neg (fun hc => hmem ((mem_labelList i n).mpr hc)),
        List.count_eq_zero.mpr hmem]
  cases hsb : storiesBuilt i env with
  | error e =>
    rw [createIssues_of_error i env e hsb]
    show (labelEvents i ++ epicEvents i env).count (Event.createLabel n) = _
    rw [List.count_append, hlab, hepic]
    simpa using hcnt
  | ok stories =>
    rw [createIssues_of_ok i env stories hsb]
    show (labelEvents i ++ epicEvents i env ++
      (sortByPriority stories).map storyEvent).count (Event.createLabel n) = _
    have hstory : ((sortByPriority stories).map storyEvent).count
        (Event.createLabel n) = 0 := by
      rw [List.count_eq_zero]
      intro hmem
      obtain ⟨s, _, hp⟩ := List.mem_map.mp hmem
      exact absurd hp (by simp [storyEvent])
    rw [List.count_append, List.count_append, hlab, hepic, hstory]
    simpa using hcnt

/-- C9: Every story record is parsed and fully validated after all epic
issue-creation calls have completed and before the first
`createIssueAddToProject` call is issued; consequently any per-story error
aborts the run with zero story issues created, though with every epic issue
already created. Formally: the trace always consists of the label events
and the full epic events followed only by story-creation events; and in an
aborted run the trace is exactly the label events plus one `createIssue`
per epics-map entry, with no story-creation event. -/
theorem c9_stories_validated_after_epics (i : Input) (env : Env) :
    (∃ sevs, (createIssues i env).events =
        labelEvents i ++ epicEvents i env ++ sevs ∧
      ∀ e ∈ sevs, e.isStoryCreate = true) ∧
    (∀ e ∈ labelEvents i ++ epicEvents i env, e.isStoryCreate = false) ∧
    ((createIssues i env).error.isSome = true →
      (createIssues i env).events = labelEvents i ++ epicEvents i env ∧
      epicEvents i env = (epicsMap i).map (fun p =>
        Event.createIssue p.2.epic.frontmatter.title
          (epicBody p.2.epic.frontmatter) (env.labelId (some "Epic")))) := by
  refine ⟨?_, ?_, ?_⟩
  · cases hsb : storiesBuilt i env with
    | error e =>
      refine ⟨[], ?_, by simp⟩
      rw [createIssues_of_error i env e hsb]
      simp
    | ok stories =>
      refine ⟨(sortByPriority stories).map storyEvent, ?_, ?_⟩
      · rw [createIssues_of_ok i env stories hsb]
      · intro e he
        obtain ⟨s, _, rfl⟩ := List.mem_map.mp he
        rfl
  · intro e he
    rcases List.mem_append.mp he with h | h
    · exact labelEvents_not_story i e h
    · exact epicEvents_not_story i env e h
  · intro herr
    cases hsb : storiesBuilt i env with
    | ok stories =>
      rw [createIssues_of_ok i env stories hsb] at herr
      simp at herr
    | error e =>
      rw [createIssues_of_error i env e hsb]
      exact ⟨rfl, epicEvents_eq i env⟩

/-- The tracker environment used by the concrete runs below. -/
def cEnv : Env := ⟨fun n => "L:" ++ interp n, fun k => "I" ++ Nat.repr k⟩

/-- Epic frontmatter of the C9 witness run. -/
def c9fmE : Frontmatter := ⟨some "E", some "backend", none, none, none⟩

/-- Story frontmatter of the C9 witness run. -/
def c9fmS : Frontmatter := ⟨some "S", some "backend", none, none, none⟩

/-- A run whose single story is absent from the (empty) manifest, so the
story phase aborts after the epic was created. -/
def c9In : Input :=
  ⟨[⟨"001-e.md", c9fmE, "ed"⟩], [⟨"001-001-s.md", c9fmS, "sd"⟩], []⟩

/-- Witness for C9 at a concrete aborted run. -/
theorem c9_witness :
    (createIssues c9In cEnv).error.isSome = true ∧
    ((createIssues c9In cEnv).events =
        labelEvents c9In ++ epicEvents c9In cEnv ∧
      epicEvents c9In cEnv = (epicsMap c9In).map (fun p =>
        Event.createIssue p.2.epic.frontmatter.title
          (epicBody p.2.epic.frontmatter) (cEnv.labelId (some "Epic")))) :=
  ⟨by decide,
    (c9_stories_validated_after_epics c9In cEnv).2.2 (by decide)⟩

/-- Epic frontmatter with no title field. -/
def c2fm : Frontmatter := ⟨none, some "backend", none, none, none⟩

/-- A run with a single, title-less epic and no stories. -/
def c2In : Input := ⟨[⟨"001-epic.md", c2fm, "d"⟩], [], []⟩

/-- C2 counterexample: an epic record with an absent title does not abort
the run (no ParseError), and the tracker issue-creation call for it is
still made, with the absent title passed through. -/
theorem c2_counterexample :
    (createIssues c2In cEnv).error = none ∧
    Event.createIssue none "" ("L:" ++ interp (some "Epic"))
      ∈ (createIssues c2In cEnv).events := by
  decide

/-- C2 (amended): for every epic record whose title field is absent, the
run does not fail on its account — the epic phase never fails — and the
tracker `createIssue` call is still made for that epic, carrying the absent
title. -/
theorem c2_amended_epic_title (i : Input) (env : Env) (k : String)
    (e : EpicEntry) (hmem : (k, e) ∈ epicsMap i)
    (ht : e.epic.frontmatter.title = none) :
    epicError i env = none ∧
    Event.createIssue none (epicBody e.epic.frontmatter)
      (env.labelId (some "Epic")) ∈ (createIssues i env).events := by
  refine ⟨epicError_none i env, ?_⟩
  have hev : Event.createIssue none (epicBody e.epic.frontmatter)
      (env.labelId (some "Epic")) ∈ epicEvents i env := by
    rw [epicEvents_eq]
    refine List.mem_map.mpr ⟨(k, e), hmem, ?_⟩
    simp [ht]
  cases hsb : storiesBuilt i env with
  | error er =>
    rw [createIssues_of_error i env er hsb]
    exact List.mem_append.mpr (Or.inr hev)
  | ok stories =>
    rw [createIssues_of_ok i env stories hsb]
    exact List.mem_append.mpr (Or.inl (List.mem_append.mpr (Or.inr hev)))

/-- Witness for the amended C2 at the concrete title-less epic run. -/
theorem c2_amended_witness :
    epicError c2In cEnv = none ∧
    Event.createIssue none
        (epicBody (entryOf ⟨"001-epic.md", c2fm, "d"⟩).epic.frontmatter)
        (cEnv.labelId (some "Epic")) ∈ (createIssues c2In cEnv).events :=
  c2_amended_epic_title c2In cEnv "001" (entryOf ⟨"001-epic.md", c2fm, "d"⟩)
    (by decide) rfl

/-- Epic frontmatter with a role but no action and no benefit. -/
def c8fm : Frontmatter := ⟨some "T", some "backend", some "dev", none, none⟩

/-- A run with a single epic whose narrative triple is incomplete. -/
def c8In : Input := ⟨[⟨"001-e.md", c8fm, "epic description"⟩], [], []⟩

/-- C8 counterexample: the claim requires an empty body whenever the full
narrative triple (role, action, benefit) is not present, but with only a
role the body is the rendered sentence with the literal text "undefined"
interpolated for the missing fields, which is not the empty string. -/
theorem c8_counterexample :
    Event.createIssue (some "T")
        "As a dev, I want to undefined so that undefined."
        ("L:" ++ interp (some "Epic")) ∈ (createIssues c8In cEnv).events ∧
    "As a dev, I want to undefined so that undefined." ≠ "" := by
  decide

/-- C8 (amended): the body of every epic issue-creation call is determined
by the frontmatter alone (the description never enters it): it is the
rendered sentence whenever `role` is truthy — with absent `action` or
`benefit` interpolated as the literal text "undefined" — and the empty
string when `role` is not truthy. -/
theorem c8_amended_epic_body (i : Input) (env : Env) :
    epicEvents i env = (epicsMap i).map (fun p =>
      Event.createIssue p.2.epic.frontmatter.title
        (epicBody p.2.epic.frontmatter) (env.labelId (some "Epic"))) ∧
    (∀ fm : Frontmatter, truthy fm.role = false → epicBody fm = "") ∧
    (∀ fm : Frontmatter, truthy fm.role = true →
      epicBody fm = "As a " ++ interp fm.role ++ ", I want to " ++
        interp fm.action ++ " so that " ++ interp fm.benefit ++ ".") := by
  refine ⟨epicEvents_eq i env, ?_, ?_⟩
  · intro fm h
    simp [epicBody, h]
  · intro fm h
    simp [epicBody, h]

/-- Witness for the amended C8, discharging both body-shape hypotheses at
concrete frontmatter values. -/
theorem c8_amended_witness :
    truthy (⟨none, none, none, none, none⟩ : Frontmatter).role = false ∧
    epicBody ⟨none, none, none, none, none⟩ = "" ∧
    truthy c8fm.role = true ∧
    epicBody c8fm = "As a " ++ interp c8fm.role ++ ", I want to " ++
      interp c8fm.action ++ " so that " ++ interp c8fm.benefit ++ "." :=
  ⟨by decide, (c8_amended_epic_body c8In cEnv).2.1 _ (by decide), by decide,
    (c8_amended_epic_body c8In cEnv).2.2 c8fm (by decide)⟩

/-- C5: For every story whose storyId does not appear in the priority
manifest, the run fails fatally with an OrderingError that names the story
file, and no tracker issue-creation call is made for that story. Formally:
if some `.md` story file's storyId misses the manifest, the run aborts and
the trace contains no `createIssueAddToProject` at all; and when every
story file before it validates (error precedence: the first failing file's
error is raised, and the manifest check is each file's first check), the
raised error is exactly `orderingError` carrying that file's name. -/
theorem c5_ordering_error (i : Input) (env : Env) (pre post : List MDFile)
    (f : MDFile) (hsplit : mdStoryFiles i = pre ++ f :: post)
    (hmiss : indexOfStr (storyIdOf f.name) i.priorityOrder = none) :
    (createIssues i env).error.isSome = true ∧
    (∀ e ∈ (createIssues i env).events, e.isStoryCreate = false) ∧
    ((∀ g ∈ pre, ∃ s, buildStory (lbnOf env i) (epicsFinal i env)
        i.priorityOrder g = .ok s) →
      (createIssues i env).error = some (.orderingError f.name)) := by
  have hferr : buildStory (lbnOf env i) (epicsFinal i env) i.priorityOrder f
      = .error (.orderingError f.name) :=
    buildStory_of_miss _ _ _ _ hmiss
  have hfe : ∃ e, storiesBuilt i env = .error e := by
    apply buildStories_error_of_mem (lbnOf env i) (epicsFinal i env)
      i.priorityOrder (mdStoryFiles i) f
    · rw [hsplit]
      exact List.mem_append.mpr (Or.inr (List.mem_cons_self _ _))
    · intro s hc
      rw [hferr] at hc
      exact absurd hc (by simp)
  obtain ⟨e, he⟩ := hfe
  refine ⟨?_, ?_, ?_⟩
  · rw [createIssues_of_error i env e he]
    rfl
  · intro ev hev
    rw [createIssues_of_error i env e he] at hev
    rcases List.mem_append.mp hev with h | h
    · exact labelEvents_not_story i ev h
    · exact epicEvents_not_story i env ev h
  · intro hpre
    have hsb : storiesBuilt i env = .error (.orderingError f.name) := by
      show buildStories (lbnOf env i) (epicsFinal i env) i.priorityOrder
        (mdStoryFiles i) = _
      rw [hsplit]
      exact buildStories_append_error _ _ _ pre post f _ hpre hferr
    rw [createIssues_of_error i env _ hsb]

/-- Epic frontmatter of the C5 witness run. -/
def c5fmE : Frontmatter := ⟨some "E", some "backend", none, none, none⟩

/-- Story frontmatter of the C5 witness run. -/
def c5fmS : Frontmatter := ⟨some "S1", some "backend", none, none, none⟩

/-- A story file listed in the manifest. -/
def c5s1 : MDFile := ⟨"001-001-a.md", c5fmS, "sd1"⟩

/-- A story file missing from the manifest. -/
def c5f : MDFile := ⟨"001-002-b.md", c5fmS, "sd2"⟩

/-- A run whose second story file is absent from the manifest. -/
def c5In : Input :=
  ⟨[⟨"001-e.md", c5fmE, "ed"⟩], [c5s1, c5f], ["001-001"]⟩

/-- Witness for C5: the concrete run aborts with the ordering error naming
the missing story's file. -/
theorem c5_witness :
    (createIssues c5In cEnv).error =
      some (RunError.orderingError "001-002-b.md") :=
  (c5_ordering_error c5In cEnv [c5s1] [] c5f (by decide) (by decide)).2.2
    (fun g hg => by
      have hge : g = c5s1 := by simpa using hg
      subst hge
      exact ⟨⟨"S1", c5fmS, "sd1", 1, some ("L:" ++ interp (some "backend")),
        "I" ++ Nat.repr 0⟩, by rfl⟩)

/-- Epic frontmatter of the C6 runs. -/
def c6fmE : Frontmatter := ⟨some "E", some "backend", none, none, none⟩

/-- Story frontmatter of the C6 runs (title derivable, label known). -/
def c6fmS : Frontmatter :=
  ⟨some "S", some "backend", some "u", some "a", some "b"⟩

/-- A story file whose epic id ("002") matches no epic file. -/
def c6f : MDFile := ⟨"002-001-s.md", c6fmS, "sd"⟩

/-- A run whose single story references an unknown epic. -/
def c6In : Input := ⟨[⟨"001-e.md", c6fmE, "ed"⟩], [c6f], ["002-001"]⟩

/-- C6 counterexample: a story referencing an unknown epic does abort the
run, but with the runtime undefined-property error — whose message carries
no file name — not with a HierarchyError naming the offending file. -/
theorem c6_counterexample :
    (createIssues c6In cEnv).error = some RunError.undefinedEpicError ∧
    RunError.mentionsFile RunError.undefinedEpicError = none ∧
    (∀ e ∈ (createIssues c6In cEnv).events, e.isStoryCreate = false) := by
  decide

/-- C6 (amended): for every story file whose first filename segment matches
no key of the epics mapping, the run fails fatally and no story issue is
created; when the file is reached (all earlier story files validate) and
its own manifest and title checks pass, the failure is the raw
undefined-property access error, which does not name the file. -/
theorem c6_amended_unknown_epic (i : Input) (env : Env)
    (pre post : List MDFile) (f : MDFile)
    (hsplit : mdStoryFiles i = pre ++ f :: post)
    (hmiss : getKey (epicsMap i) (storyEpicKeyOf f.name) = none) :
    (createIssues i env).error.isSome = true ∧
    (∀ e ∈ (createIssues i env).events, e.isStoryCreate = false) ∧
    ((∀ g ∈ pre, ∃ s, buildStory (lbnOf env i) (epicsFinal i env)
        i.priorityOrder g = .ok s) →
      ∀ k, indexOfStr (storyIdOf f.name) i.priorityOrder = some k →
      truthy (derivedTitle f.frontmatter) = true →
      (createIssues i env).error = some RunError.undefinedEpicError) := by
  have hkey2 : getKey (epicsFinal i env) (storyEpicKeyOf f.name) = none := by
    cases hk : getKey (epicsFinal i env) (storyEpicKeyOf f.name) with
    | none => rfl
    | some e =>
      have h1 : (getKey (epicsFinal i env) (storyEpicKeyOf f.name)).isSome
          = true := by rw [hk]; rfl
      rw [getKey_isSome_iff, epicsFinal_keys, ← getKey_isSome_iff, hmiss]
        at h1
      exact absurd h1 (by simp)
  have hnotok : ∀ s, buildStory (lbnOf env i) (epicsFinal i env)
      i.priorityOrder f ≠ .ok s := by
    intro s hc
    obtain ⟨k, entry, _, _, hkey, _⟩ := buildStory_ok_inv _ _ _ _ _ hc
    rw [hkey2] at hkey
    exact absurd hkey (by simp)
  have hfe : ∃ e, storiesBuilt i env = .error e := by
    apply buildStories_error_of_mem (lbnOf env i) (epicsFinal i env)
      i.priorityOrder (mdStoryFiles i) f
    · rw [hsplit]
      exact List.mem_append.mpr (Or.inr (List.mem_cons_self _ _))
    · exact hnotok
  obtain ⟨e, he⟩ := hfe
  refine ⟨?_, ?_, ?_⟩
  · rw [createIssues_of_error i env e he]
    rfl
  · intro ev hev
    rw [createIssues_of_error i env e he] at hev
    rcases List.mem_append.mp hev with h | h
    · exact labelEvents_not_story i ev h
    · exact epicEvents_not_story i env ev h
  · intro hpre k hidx ht
    have hferr : buildStory (lbnOf env i) (epicsFinal i env) i.priorityOrder f
        = .error .undefinedEpicError :=
      buildStory_of_noEpic _ _ _ _ k hidx ht hkey2
    have hsb : storiesBuilt i env = .error .undefinedEpicError := by
      show buildStories (lbnOf env i) (epicsFinal i env) i.priorityOrder
        (mdStoryFiles i) = _
      rw [hsplit]
      exact buildStories_append_error _ _ _ pre post f _ hpre hferr
    rw [createIssues_of_error i env _ hsb]

/-- Witness for the amended C6 at the concrete unknown-epic run. -/
theorem c6_amended_witness :
    (createIssues c6In cEnv).error = some RunError.undefinedEpicError :=
  (c6_amended_unknown_epic c6In cEnv [] [] c6f (by decide) (by decide)).2.2
    (fun g hg => absurd hg (by simp)) 0 (by decide) (by decide)

/-- Epic frontmatter of the C1 runs: label "backend". -/
def c1fmE : Frontmatter := ⟨some "E", some "backend", none, none, none⟩

/-- Story frontmatter of the C1 counterexample: its own label "frontend"
differs from the owning epic's label. -/
def c1fmS : Frontmatter := ⟨none, some "frontend", some "u", some "a", some "b"⟩

/-- A run whose story carries a label different from its epic's. -/
def c1In : Input :=
  ⟨[⟨"001-e.md", c1fmE, "ed"⟩], [⟨"001-001-s.md", c1fmS, "sd"⟩],
    ["001-001"]⟩

/-- C1 counterexample: the labelId passed to `createIssueAddToProject` is
resolved from the story's own frontmatter label, not from the owning
epic's: with story label "frontend" (never resolved) under an epic labelled
"backend", the call carries `none` while the epic's label resolves to an
id. -/
theorem c1_counterexample :
    (createIssues c1In cEnv).error = none ∧
    Event.createIssueAddToProject ("I" ++ Nat.repr 0) "As a u, I want to a"
        ("As a u, I want to a so that b.\n\nsd") none
      ∈ (createIssues c1In cEnv).events ∧
    getKey (lbnOf cEnv c1In) (some "backend") =
      some ("L:" ++ interp (some "backend")) ∧
    (none : Option String) ≠ some ("L:" ++ interp (some "backend")) := by
  decide

/-- C1 (amended): for every story, the labelId passed to the tracker's
`createIssueAddToProject` call equals `labelsByName` applied to the story's
own frontmatter label (which is `none` when that name was never resolved);
it coincides with the epic's resolved label id only when the story's label
equals its epic's. -/
theorem c1_amended_story_label (i : Input) (env : Env)
    (l : List StoryWithEpic) (h : storiesBuilt i env = .ok l) :
    List.Forall₂ (fun f s => s.frontmatter = f.frontmatter ∧
      s.labelId = getKey (lbnOf env i) f.frontmatter.label)
      (mdStoryFiles i) l ∧
    (∀ p t b lid,
      Event.createIssueAddToProject p t b lid ∈ (createIssues i env).events →
      ∃ s ∈ l, lid = s.labelId ∧
        s.labelId = getKey (lbnOf env i) s.frontmatter.label) := by
  have hf2 := (buildStories_ok_iff _ _ _ (mdStoryFiles i) l).mp h
  have hfields : List.Forall₂ (fun f s => s.frontmatter = f.frontmatter ∧
      s.labelId = getKey (lbnOf env i) f.frontmatter.label)
      (mdStoryFiles i) l := by
    refine hf2.imp ?_
    intro f s hok
    obtain ⟨k, entry, _, _, _, hs⟩ := buildStory_ok_inv _ _ _ _ _ hok
    subst hs
    exact ⟨rfl, rfl⟩
  refine ⟨hfields, ?_⟩
  intro p t b lid hmem
  rw [createIssues_of_ok i env l h] at hmem
  rcases List.mem_append.mp hmem with hm | hm
  · rcases List.mem_append.mp hm with hm2 | hm2
    · obtain ⟨n, _, he⟩ := List.mem_map.mp hm2
      exact absurd he (by simp)
    · rw [epicEvents_eq] at hm2
      obtain ⟨q, _, he⟩ := List.mem_map.mp hm2
      exact absurd he (by simp)
  · obtain ⟨s, hsmem, he⟩ := List.mem_map.mp hm
    have hsl : s ∈ l := (sortByPriority_perm l).mem_iff.mp hsmem
    obtain ⟨f, _, hff, hfl⟩ := forall₂_exists_left hfields hsl
    refine ⟨s, hsl, ?_, ?_⟩
    · have := he
      simp only [storyEvent] at this
      injection this with h1 h2 h3 h4
      exact h4.symm
    · rw [hfl, hff]

/-- The single story record of the C1 counterexample run. -/
def c1Story : StoryWithEpic :=
  ⟨"As a u, I want to a", c1fmS, "sd", 1, none, "I" ++ Nat.repr 0⟩

/-- Witness for the amended C1 at the concrete run. -/
theorem c1_amended_witness :
    List.Forall₂ (fun f s => s.frontmatter = f.frontmatter ∧
      s.labelId = getKey (lbnOf cEnv c1In) f.frontmatter.label)
      (mdStoryFiles c1In) [c1Story] ∧
    (∀ p t b lid,
      Event.createIssueAddToProject p t b lid
        ∈ (createIssues c1In cEnv).events →
      ∃ s ∈ [c1Story], lid = s.labelId ∧
        s.labelId = getKey (lbnOf cEnv c1In) s.frontmatter.label) :=
  c1_amended_story_label c1In cEnv [c1Story] (by rfl)

/-- The priorities of the sorted story sequence of a run (empty when the
story phase failed). -/
def sortedPriorities (i : Input) (env : Env) : List Nat :=
  match sortedStories i env with
  | .ok l => l.map (fun s => s.priority)
  | .error _ => []

/-- Epic frontmatter of the C4 runs. -/
def c4fmE : Frontmatter := ⟨some "E", some "backend", none, none, none⟩

/-- Story frontmatter of the C4 runs. -/
def c4fmS : Frontmatter := ⟨some "S", some "backend", none, none, none⟩

/-- A run with two story files sharing the same storyId "001-001": both
receive the same priority from the manifest. -/
def c4In : Input :=
  ⟨[⟨"001-e.md", c4fmE, "ed"⟩],
    [⟨"001-001-a.md", c4fmS, "da"⟩, ⟨"001-001-b.md", c4fmS, "db"⟩],
    ["001-001"]⟩

/-- C4 counterexample: two story files with the same id both get priority
1, the run completes making both creation calls, and the priorities of the
call sequence are [1, 1] — not strictly ascending. -/
theorem c4_counterexample :
    (createIssues c4In cEnv).error = none ∧
    (createIssues c4In cEnv).events.countP Event.isStoryCreate = 2 ∧
    sortedPriorities c4In cEnv = [1, 1] ∧
    ¬ (sortedPriorities c4In cEnv).Pairwise (fun a b => a < b) := by
  decide

/-- C4 (amended): every story's priority equals 1 plus the first index of
its storyId in the manifest; the creation calls occur in ascending
(non-strict) priority order, and in strictly ascending order whenever the
story files' storyIds are pairwise distinct (two files sharing a storyId
tie). -/
theorem c4_amended_priority_order (i : Input) (env : Env)
    (l : List StoryWithEpic) (h : storiesBuilt i env = .ok l) :
    List.Forall₂ (fun f s => ∃ k,
      indexOfStr (storyIdOf f.name) i.priorityOrder = some k ∧
      s.priority = k + 1) (mdStoryFiles i) l ∧
    (createIssues i env).events =
      labelEvents i ++ epicEvents i env ++ (sortByPriority l).map storyEvent ∧
    (sortByPriority l).Pairwise (fun a b => a.priority ≤ b.priority) ∧
    (((mdStoryFiles i).map (fun f => storyIdOf f.name)).Nodup →
      (sortByPriority l).Pairwise (fun a b => a.priority < b.priority)) := by
  have hf2 := (buildStories_ok_iff _ _ _ (mdStoryFiles i) l).mp h
  refine ⟨?_, ?_, sortByPriority_sorted l, ?_⟩
  · refine hf2.imp ?_
    intro f s hok
    obtain ⟨k, entry, hidx, _, _, hs⟩ := buildStory_ok_inv _ _ _ _ _ hok
    subst hs
    exact ⟨k, hidx, rfl⟩
  · rw [createIssues_of_ok i env l h]
  · intro hnd
    have hnd2 : (l.map (fun s => s.priority)).Nodup :=
      priorities_nodup _ _ _ (mdStoryFiles i) l hf2 hnd
    have hperm : List.Perm (l.map (fun s => s.priority))
        ((sortByPriority l).map (fun s => s.priority)) :=
      ((sortByPriority_perm l).map (fun s => s.priority)).symm
    exact pairwise_lt_of_le_nodup (sortByPriority_sorted l)
      (hperm.nodup hnd2)

/-- A clean C4 run: two stories with distinct ids, listed in the manifest
in the reverse of file order. -/
def c4wIn : Input :=
  ⟨[⟨"001-e.md", c4fmE, "ed"⟩],
    [⟨"001-002-a.md", c4fmS, "da"⟩, ⟨"001-001-b.md", c4fmS, "db"⟩],
    ["001-001", "001-002"]⟩

/-- Story record of file "001-002-a.md" in the clean C4 run. -/
def c4wsa : StoryWithEpic :=
  ⟨"S", c4fmS, "da", 2, some ("L:" ++ interp (some "backend")),
    "I" ++ Nat.repr 0⟩

/-- Story record of file "001-001-b.md" in the clean C4 run. -/
def c4wsb : StoryWithEpic :=
  ⟨"S", c4fmS, "db", 1, some ("L:" ++ interp (some "backend")),
    "I" ++ Nat.repr 0⟩

/-- Witness for the amended C4 at the clean run (distinct storyIds, so the
strict-ascent hypothesis is also satisfied there). -/
theorem c4_amended_witness :
    (((mdStoryFiles c4wIn).map (fun f => storyIdOf f.name)).Nodup) ∧
    (List.Forall₂ (fun f s => ∃ k,
        indexOfStr (storyIdOf f.name) c4wIn.priorityOrder = some k ∧
        s.priority = k + 1) (mdStoryFiles c4wIn) [c4wsa, c4wsb] ∧
      (createIssues c4wIn cEnv).events =
        labelEvents c4wIn ++ epicEvents c4wIn cEnv ++
          (sortByPriority [c4wsa, c4wsb]).map storyEvent ∧
      (sortByPriority [c4wsa, c4wsb]).Pairwise
        (fun a b => a.priority ≤ b.priority) ∧
      (((mdStoryFiles c4wIn).map (fun f => storyIdOf f.name)).Nodup →
        (sortByPriority [c4wsa, c4wsb]).Pairwise
          (fun a b => a.priority < b.priority))) :=
  ⟨by decide,
    c4_amended_priority_order c4wIn cEnv [c4wsa, c4wsb] (by rfl)⟩

/-- Dropping as many elements as the prefix taken leaves the dropped-while
suffix. -/
theorem drop_length_takeWhile {α : Type} (p : α → Bool) (l : List α) :
    l.drop (l.takeWhile p).length = l.dropWhile p := by
  induction l with
  | nil => rfl
  | cons a l ih =>
    by_cases ha : p a = true
    · simp only [List.takeWhile_cons, ha, if_true, List.length_cons,
        List.drop_succ_cons, List.dropWhile_cons, ih]
    · have haf : p a = false := by simpa using ha
      simp [List.takeWhile_cons, List.dropWhile_cons, haf]

/-- `takeWhile` on a satisfying prefix followed by a failing element takes
exactly the prefix. -/
theorem takeWhile_prefix_stop {α : Type} (p : α → Bool) (ds rs : List α)
    (h : ∀ c ∈ ds, p c = true) (c0 : α) (h0 : p c0 = false) :
    (ds ++ c0 :: rs).takeWhile p = ds := by
  induction ds with
  | nil => simp [List.takeWhile_cons, h0]
  | cons d ds ih =>
    have hd : p d = true := h d (List.mem_cons_self d ds)
    simp only [List.cons_append, List.takeWhile_cons, hd, if_true]
    rw [ih (fun c hc => h c (List.mem_cons.mpr (Or.inr hc)))]

/-- Characterization of the filename match: it returns `some d` exactly
when the name decomposes as a nonempty all-digit run `d`, a dash, and a
rest. -/
theorem epicNumberOf_eq_some_iff (f d : String) :
    epicNumberOf f = some d ↔
      d ≠ "" ∧ (∀ c ∈ d.data, c.isDigit = true) ∧
        ∃ rest, f = d ++ "-" ++ rest := by
  constructor
  · intro h
    simp only [epicNumberOf] at h
    by_cases he : (f.toList.takeWhile Char.isDigit).isEmpty = true
    · rw [if_pos he] at h
      cases h
    · rw [if_neg he] at h
      split at h
      next c tail heq =>
        by_cases hc : c = '-'
        · rw [if_pos hc] at h
          have hd : String.mk (f.toList.takeWhile Char.isDigit) = d := by
            simpa using h
          have hdd : d.data = f.toList.takeWhile Char.isDigit := by
            rw [← hd]
          refine ⟨?_, ?_, String.mk tail, ?_⟩
          · intro hc2
            have hdl : d.data = [] := by subst hc2; rfl
            rw [hdd] at hdl
            rw [List.isEmpty_iff] at he
            exact he hdl
          · intro ch hch
            rw [hdd] at hch
            exact List.mem_takeWhile_imp hch
          · apply String.ext
            have hsplit : f.toList.takeWhile Char.isDigit ++
                f.toList.dropWhile Char.isDigit = f.toList :=
              List.takeWhile_append_dropWhile _ _
            have hdw : f.toList.dropWhile Char.isDigit = c :: tail := by
              rw [← drop_length_takeWhile Char.isDigit f.toList, heq]
            rw [String.data_append, String.data_append, hdd]
            subst hc
            rw [List.append_assoc]
            show f.toList = f.toList.takeWhile Char.isDigit ++ ('-' :: tail)
            rw [← hdw]
            exact hsplit.symm
        · rw [if_neg hc] at h
          cases h
      next heq => cases h
  · rintro ⟨hne, hdig, rest, hf⟩
    have hfl : f.toList = d.data ++ '-' :: rest.data := by
      rw [hf]
      show (d ++ "-" ++ rest).data = _
      rw [String.data_append, String.data_append, List.append_assoc]
      rfl
    have hdne : d.data ≠ [] := by
      intro hc
      apply hne
      exact String.ext (show d.data = ("" : String).data from hc)
    have htw : f.toList.takeWhile Char.isDigit = d.data := by
      rw [hfl]
      exact takeWhile_prefix_stop _ _ _ hdig '-' (by decide)
    have hdrop2 : f.toList.drop (f.toList.takeWhile Char.isDigit).length =
        '-' :: rest.data := by
      rw [htw, hfl]
      exact List.drop_left _ _
    simp only [epicNumberOf]
    rw [if_neg (by
      rw [htw]
      simpa [List.isEmpty_iff] using hdne)]
    rw [hdrop2]
    show (if ('-' : Char) = '-' then
      some (String.mk (f.toList.takeWhile Char.isDigit)) else none) = some d
    rw [if_pos rfl, htw]

/-- Epic frontmatter of the C7 counterexample. -/
def c7fm : Frontmatter := ⟨some "R", some "backend", none, none, none⟩

/-- A run whose epics location contains a `.md` file that does not follow
the digits-dash naming convention. -/
def c7In : Input := ⟨[⟨"README.md", c7fm, "readme"⟩], [], []⟩

/-- C7 counterexample: a markdown file that does not begin with digits
followed by the separator does not make the run fail — there is no
ParseError; the record is silently stored under the property key
"undefined" and the run completes. -/
theorem c7_counterexample :
    epicNumberOf "README.md" = none ∧
    (createIssues c7In cEnv).error = none ∧
    (getKey (epicsMap c7In) "undefined").isSome = true := by
  decide

/-- C7 (amended): for every file that does match the naming convention the
derived epicId equals the leading digit run (formally: the match returns
`some d` exactly when the name is a nonempty digit run `d`, a dash, and a
rest); a non-matching epic file raises no error and is keyed under the
literal string "undefined". -/
theorem c7_amended_filename_convention (f d : String) :
    (epicNumberOf f = some d ↔
      d ≠ "" ∧ (∀ c ∈ d.data, c.isDigit = true) ∧
        ∃ rest, f = d ++ "-" ++ rest) ∧
    (epicNumberOf f = none → epicKeyOf f = "undefined") := by
  refine ⟨epicNumberOf_eq_some_iff f d, ?_⟩
  intro h
  unfold epicKeyOf
  rw [h]
  rfl

/-- Witness for the amended C7 on concrete names. -/
theorem c7_amended_witness :
    epicNumberOf "001-epic.md" = some "001" ∧
    epicKeyOf "README.md" = "undefined" :=
  ⟨(c7_amended_filename_convention "001-epic.md" "001").1.mpr
      ⟨by decide, by decide, "epic.md", by decide⟩,
    (c7_amended_filename_convention "README.md" "0").2 (by decide)⟩

/-- C10: If two or more epic files share the same leading digit run, the
epics mapping keeps only the record from the file occurring last in
directory-listing order, exactly one epic issue is created for that id
(from that last file's content), and every story with that epicId is
attached to that single issue. Formally, for every key: the lookup is the
record of the last `.md` epic file with that key; the mapping's keys are
duplicate-free and contain each present key exactly once (hence exactly
one `createIssue` event, which conjunct four ties to the mapping, arises
per id); and every story's parentIssueId is the issueId of the single
mapping entry for its epic key. -/
theorem c10_duplicate_epic_ids (i : Input) (env : Env) (k : String) :
    getKey (epicsMap i) k =
      (((mdEpicFiles i).filter
        (fun f => epicKeyOf f.name == k)).getLast?).map entryOf ∧
    ((epicsMap i).map Prod.fst).Nodup ∧
    (epicsMap i).countP (fun p => p.1 == k) =
      (if (mdEpicFiles i).any (fun f => epicKeyOf f.name == k) = true
       then 1 else 0) ∧
    epicEvents i env = (epicsMap i).map (fun p =>
      Event.createIssue p.2.epic.frontmatter.title
        (epicBody p.2.epic.frontmatter) (env.labelId (some "Epic"))) ∧
    (∀ l, storiesBuilt i env = .ok l →
      List.Forall₂ (fun f s => ∃ e,
        getKey (epicsFinal i env) (storyEpicKeyOf f.name) = some e ∧
        s.parentIssueId = e.issueId) (mdStoryFiles i) l) := by
  have hlast := getKey_epicsMap i k
  have hnd := nodup_keys_epicsMap i
  refine ⟨hlast, hnd, ?_, epicEvents_eq i env, ?_⟩
  · have hcp : (epicsMap i).countP (fun p => p.1 == k) =
        ((epicsMap i).map Prod.fst).count k := by
      rw [List.count, List.countP_map]
      rfl
    have hmem_iff : k ∈ (epicsMap i).map Prod.fst ↔
        (mdEpicFiles i).any (fun f => epicKeyOf f.name == k) = true := by
      rw [← getKey_isSome_iff, hlast]
      cases hfil : (mdEpicFiles i).filter (fun f => epicKeyOf f.name == k) with
      | nil =>
        simp only [List.getLast?_nil, Option.map_none']
        constructor
        · intro hc
          exact absurd hc (by simp)
        · intro hc
          rw [List.any_eq_true] at hc
          obtain ⟨x, hx, hpx⟩ := hc
          have : x ∈ (mdEpicFiles i).filter
              (fun f => epicKeyOf f.name == k) :=
            List.mem_filter.mpr ⟨hx, hpx⟩
          rw [hfil] at this
          cases this
      | cons g gs =>
        have hne : g :: gs ≠ [] := by simp
        obtain ⟨x, hx⟩ :=
          Option.isSome_iff_exists.mp (List.getLast?_isSome.mpr hne)
        rw [hx]
        constructor
        · intro _
          rw [List.any_eq_true]
          have hgmem : g ∈ (mdEpicFiles i).filter
              (fun f => epicKeyOf f.name == k) := by
            rw [hfil]
            exact List.mem_cons_self _ _
          obtain ⟨hgm, hgp⟩ := List.mem_filter.mp hgmem
          exact ⟨g, hgm, hgp⟩
        · intro _
          rfl
    rw [hcp]
    by_cases hm : k ∈ (epicsMap i).map Prod.fst
    · rw [if_pos (hmem_iff.mp hm)]
      exact count_one_of_nodup_mem hnd hm
    · rw [if_neg (fun hc => hm (hmem_iff.mpr hc)),
        List.count_eq_zero.mpr hm]
  · intro l hl
    have hf2 := (buildStories_ok_iff _ _ _ (mdStoryFiles i) l).mp hl
    refine hf2.imp ?_
    intro f s hok
    obtain ⟨j, entry, _, _, hkey, hs⟩ := buildStory_ok_inv _ _ _ _ _ hok
    subst hs
    exact ⟨entry, hkey, rfl⟩

/-- First epic file of the C10 witness run (overwritten). -/
def c10fa : MDFile :=
  ⟨"001-a.md", ⟨some "A", some "la", none, none, none⟩, "da"⟩

/-- Second epic file of the C10 witness run with the same id (wins). -/
def c10fb : MDFile :=
  ⟨"001-b.md", ⟨some "B", some "lb", none, none, none⟩, "db"⟩

/-- Story file attached to the duplicated epic id. -/
def c10s : MDFile :=
  ⟨"001-001-s.md", ⟨some "S", some "lb", none, none, none⟩, "ds"⟩

/-- A run with two epic files sharing the id "001" and one story under it. -/
def c10In : Input := ⟨[c10fa, c10fb], [c10s], ["001-001"]⟩

/-- The single story record of the C10 witness run. -/
def c10Story : StoryWithEpic :=
  ⟨"S", ⟨some "S", some "lb", none, none, none⟩, "ds", 1,
    some ("L:" ++ interp (some "lb")), "I" ++ Nat.repr 0⟩

/-- Witness for C10, discharging the story-phase hypothesis at the
concrete duplicated-id run. -/
theorem c10_witness :
    storiesBuilt c10In cEnv = .ok [c10Story] ∧
    List.Forall₂ (fun f s => ∃ e,
      getKey (epicsFinal c10In cEnv) (storyEpicKeyOf f.name) = some e ∧
      s.parentIssueId = e.issueId) (mdStoryFiles c10In) [c10Story] :=
  ⟨by rfl,
    (c10_duplicate_epic_ids c10In cEnv "001").2.2.2.2 [c10Story] (by rfl)⟩

end IssueBoard
